import Mathlib

/-!
Verification of the grmtools-based calculator (`Learning_Parser_grmtools`).

The repository contains `build.rs` (which documents the `calc.y` grammar and
its action code verbatim) and `src/main.rs` (the REPL caller).  The grammar
actions below are translated from the grammar documented in `build.rs`; the
lexical rules, the `parse_int` helper and the lrpar error-recovery engine are
not under `src/` and are modelled from the spec where needed (each such
definition says so in its doc comment).

Machine integers (`u64`) are modelled as `Nat` with explicit `% 2 ^ 64`
where overflow matters.
-/

namespace CalcGrmtools

/-- Token kinds of the calculator language: `INT`, `'+'`, `'('`, `')'`. -/
inductive TokKind where
  | int
  | plus
  | lparen
  | rparen
deriving DecidableEq

/-- A lexeme: kind, matched text, half-open byte span `[start, end)` into the
input line, and whether it was inserted by error recovery (the `Err` variant
of `Result<Lexeme, Lexeme>` in grmtools, per the build.rs documentation). -/
structure Lexeme where
  kind : TokKind
  text : List Char
  span : Nat × Nat
  inserted : Bool
deriving DecidableEq

/-- Kinds of diagnostics the pipeline can produce. -/
inductive DiagKind where
  | unrecognizedChar
  | parseError
  | insertedToken (k : TokKind)
deriving DecidableEq

/-- One diagnostic: the offending span and what happened there. -/
structure Diag where
  span : Nat × Nat
  kind : DiagKind
deriving DecidableEq

/-- The per-production value type `Result<u64, ()>` of the grammar rules. -/
abbrev Res := Except Unit Nat

/-- Numeric value of a run of decimal digit characters (most significant
first), as `u64::from_str` computes it. -/
def digitsToNat (s : List Char) : Nat :=
  s.foldl (fun a c => 10 * a + (c.toNat - 48)) 0

/-- Modelled from the spec: the `parse_int` helper of `calc.y` is not under
`src/` (build.rs only shows its call site).  Per spec section 4.3 it parses the
literal's text as an unsigned 64-bit integer and fails with `Err(())` if the
digit span is empty or the value does not fit in 64 bits. -/
def parse_int (s : List Char) : Res :=
  if s ≠ [] ∧ (∀ c ∈ s, c.isDigit = true) ∧ digitsToNat s < 2 ^ 64 then
    .ok (digitsToNat s)
  else
    .error ()

/-- Action of `Expr -> Expr '+' Term { Ok($1? + $3?) }` (grammar documented in
build.rs lines 12-15): error short-circuit on either operand, then unchecked
`u64` addition.  Release-profile Rust semantics: overflow wraps modulo
`2 ^ 64`.  (`actionAddDebug` below models the dev-profile semantics.) -/
def actionAdd : Res → Res → Res
  | .error e, _ => .error e
  | .ok _, .error e => .error e
  | .ok a, .ok b => .ok ((a + b) % 2 ^ 64)

/-- The same addition action `Ok($1? + $3?)` under the dev (debug) profile,
where `u64` overflow is checked and panics: `none` models the panic, which is
neither an `Err` value nor a diagnostic. -/
def actionAddDebug : Res → Res → Option Res
  | .error e, _ => some (.error e)
  | .ok _, .error e => some (.error e)
  | .ok a, .ok b => if a + b < 2 ^ 64 then some (.ok (a + b)) else none

/-- Action of the enriched variant documented in build.rs lines 84-91:
`Ok($1?.checked_add($3?).ok_or(Box::<dyn Error>::from("Overflow detected."))?)`. -/
def actionAddChecked : Except String Nat → Except String Nat → Except String Nat
  | .error e, _ => .error e
  | .ok _, .error e => .error e
  | .ok a, .ok b =>
    if a + b < 2 ^ 64 then .ok (a + b) else .error "Overflow detected."

/-- Action of `Factor -> 'INT'` (build.rs lines 57-63):
`let v = $1.map_err(|_| ())?; parse_int($lexer.span_str(v.span()))` — an
inserted lexeme is the `Err` variant, so it becomes `Err(())`; otherwise the
matched text is parsed as a `u64`. -/
def actionInt (l : Lexeme) : Res :=
  if l.inserted then .error () else parse_int l.text

/-- Action of `Factor -> '(' Expr ')' { $2 }` (build.rs lines 57-63): the
inner `Expr` value passes through unchanged; neither parenthesis lexeme is
inspected. -/
def actionParen (_lp : Lexeme) (inner : Res) (_rp : Lexeme) : Res := inner

/-! ## Lexer

Modelled from the spec: `calc.l` is not under `src/` (main.rs only documents
the whitespace rule `[ \t]+ ;`).  Per spec section 4.1 the lexer classifies
maximal runs of decimal digits as `Integer`, the single characters `+`, `(`,
`)` as their own kinds, discards spaces and tabs, and surfaces any other byte
as a lexical error for the offending span; we take the documented
implementer's choice of failing the whole line on a lexical error. -/

/-- Emit the pending integer run (if any) in front of `ts`. -/
def flushInt (cur : Option (Nat × List Char)) (pos : Nat) (ts : List Lexeme) :
    List Lexeme :=
  match cur with
  | none => ts
  | some (st, ds) => ⟨.int, ds, (st, pos), false⟩ :: ts

/-- Modelled from the spec: the lexer state machine for the missing `calc.l`.
`cur` is the pending maximal digit run (start position and digits so far). -/
def lexGo : Nat → Option (Nat × List Char) → List Char →
    Except Diag (List Lexeme)
  | pos, cur, [] => .ok (flushInt cur pos [])
  | pos, cur, c :: cs =>
    if c.isDigit then
      match cur with
      | none => lexGo (pos + 1) (some (pos, [c])) cs
      | some (st, ds) => lexGo (pos + 1) (some (st, ds ++ [c])) cs
    else if c = ' ' ∨ c = '\t' then
      match lexGo (pos + 1) none cs with
      | .error d => .error d
      | .ok ts => .ok (flushInt cur pos ts)
    else if c = '+' then
      match lexGo (pos + 1) none cs with
      | .error d => .error d
      | .ok ts => .ok (flushInt cur pos (⟨.plus, [c], (pos, pos + 1), false⟩ :: ts))
    else if c = '(' then
      match lexGo (pos + 1) none cs with
      | .error d => .error d
      | .ok ts => .ok (flushInt cur pos (⟨.lparen, [c], (pos, pos + 1), false⟩ :: ts))
    else if c = ')' then
      match lexGo (pos + 1) none cs with
      | .error d => .error d
      | .ok ts => .ok (flushInt cur pos (⟨.rparen, [c], (pos, pos + 1), false⟩ :: ts))
    else
      .error ⟨(pos, pos + 1), .unrecognizedChar⟩

/-- Lex one whole input line. -/
def lexLine (cs : List Char) : Except Diag (List Lexeme) := lexGo 0 none cs

/-! ## Parser

The grammar (build.rs lines 12-15, 28-31 and 57-63):

    Expr   -> Expr '+' Term | Term
    Term   -> Factor
    Factor -> '(' Expr ')' | 'INT'

`+` is left-associative (left-recursive production), so the parser below
folds additions left-to-right, exactly reproducing the order in which the LR
parser performs `Expr '+' Term` reductions.  The lrpar runtime and its CPCT+
error recovery are not under `src/`; recovery is modelled from the spec
(section 4.2): when the parser reaches the end of input with an unclosed
`'('`, it inserts the single token kind that makes the context valid — a
`')'` lexeme marked as inserted — and records one diagnostic, then resumes.
Other syntax errors produce a diagnostic and no parse tree (`None`). -/

/-- The `')'` lexeme synthesized by error recovery at position `p`. -/
def insertedRParen (p : Nat) : Lexeme := ⟨.rparen, [')'], (p, p), true⟩

/-- One `Factor` (equivalently `Term`, via the pass-through production
`Term -> Factor { $1 }`), given a parser `pe` for inner expressions.
Returns the production's value, the remaining lexemes and any diagnostics
recorded by recovery; `ep` is the end-of-line position used for the
inserted-`')'` repair. -/
def factorStep (pe : List Lexeme → Option (Res × List Lexeme × List Diag))
    (ep : Nat) : List Lexeme → Option (Res × List Lexeme × List Diag)
  | [] => none
  | l :: rest =>
    match l.kind with
    | .int => some (actionInt l, rest, [])
    | .lparen =>
      match pe rest with
      | none => none
      | some (v, [], ds) =>
        some (actionParen l v (insertedRParen ep), [],
          ds ++ [⟨(ep, ep), .insertedToken .rparen⟩])
      | some (v, r :: rest2, ds) =>
        if r.kind = .rparen then some (actionParen l v r, rest2, ds) else none
    | _ => none

/-- The left-recursive `Expr -> Expr '+' Term` reductions: starting from the
value `acc` of the `Expr` parsed so far, repeatedly consume `'+' Term` and
combine with `actionAdd`, left-to-right.  Fuel-indexed for structural
recursion; one unit of fuel per reduction. -/
def loopPlus (factor : List Lexeme → Option (Res × List Lexeme × List Diag)) :
    Nat → Res → List Lexeme → List Diag →
    Option (Res × List Lexeme × List Diag)
  | 0, _, _, _ => none
  | _ + 1, acc, [], ds => some (acc, [], ds)
  | f + 1, acc, l :: rest, ds =>
    if l.kind = .plus then
      match factor rest with
      | none => none
      | some (v, rest2, ds2) => loopPlus factor f (actionAdd acc v) rest2 (ds ++ ds2)
    else
      some (acc, l :: rest, ds)

/-- Parse one `Expr`: a first `Term` followed by zero or more `'+' Term`.
Fuel-indexed; each parenthesis nesting level consumes one unit, so
`length + 1` fuel always suffices. -/
def parseExprFuel (ep : Nat) : Nat → List Lexeme →
    Option (Res × List Lexeme × List Diag)
  | 0 => fun _ => none
  | f + 1 => fun toks =>
    match factorStep (parseExprFuel ep f) ep toks with
    | none => none
    | some (v, rest, ds) => loopPlus (factorStep (parseExprFuel ep f) ep) (f + 1) v rest ds

/-- Modelled from the spec: the outcome shape of `lrpar`'s
`parse(lexer) -> (Option<Result<u64, ()>>, Vec<...>)` (spec section 4.2).
Empty input yields `None` with no diagnostics; a stream that reduces to a
single `Expr` yields `Some` of the root value together with any recovery
diagnostics; leftover input or an unrecoverable error yields `None` plus a
syntax diagnostic. -/
def parseToks (ep : Nat) (toks : List Lexeme) : Option Res × List Diag :=
  match toks with
  | [] => (none, [])
  | _ :: _ =>
    match parseExprFuel ep (toks.length + 1) toks with
    | some (v, [], ds) => (some v, ds)
    | some (_, l :: _, ds) => (none, ds ++ [⟨l.span, .parseError⟩])
    | none => (none, [⟨(ep, ep), .parseError⟩])

/-- The whole per-line pipeline `calc_y::parse(&lexerdef.lexer(l))` of
main.rs: lex the line, then parse and evaluate; a lexical error fails the
line with its diagnostic. -/
def parseLine (cs : List Char) : Option Res × List Diag :=
  match lexLine cs with
  | .error d => (none, [d])
  | .ok toks => parseToks cs.length toks

/-! ## Schematic inputs `a+b+...+z` of decimal literals -/

/-- The input line `a+b+...+z` built from a list of literal texts. -/
def joinPlus : List (List Char) → List Char
  | [] => []
  | [p] => p
  | p :: ps => p ++ '+' :: joinPlus ps

/-- The `INT` lexeme for literal text `p` starting at position `pos`. -/
def intLexAt (pos : Nat) (p : List Char) : Lexeme :=
  ⟨.int, p, (pos, pos + p.length), false⟩

/-- The `'+'` lexeme at position `pos`. -/
def plusLexAt (pos : Nat) : Lexeme := ⟨.plus, ['+'], (pos, pos + 1), false⟩

/-- Lexemes of the tail `+b+c+...` of a literal sum, starting at `pos`. -/
def tailToks : Nat → List (List Char) → List Lexeme
  | _, [] => []
  | pos, p :: ps =>
    plusLexAt pos :: intLexAt (pos + 1) p :: tailToks (pos + 1 + p.length) ps

/-- The full lexeme list of `a+b+...+z` starting at `pos`. -/
def toksOf (pos : Nat) : List (List Char) → List Lexeme
  | [] => []
  | p :: ps => intLexAt pos p :: tailToks (pos + p.length) ps

/-- Every left-to-right running sum starting from `acc` stays below `2 ^ 64`. -/
def sumsFit : Nat → List Nat → Bool
  | _, [] => true
  | acc, v :: vs => decide (acc + v < 2 ^ 64) && sumsFit (acc + v) vs

/-! ## Caller (the REPL loop in src/main.rs, lines 208-238) -/

/-- Whitespace as Rust's `str::trim` recognizes it (restricted to the ASCII
whitespace that can occur in a line read by `lines()`). -/
def isRustWs (c : Char) : Bool := c = ' ' || c = '\t' || c = '\n' || c = '\r'

/-- Rust's `l.trim()`: strip leading and trailing whitespace. -/
def rustTrim (cs : List Char) : List Char :=
  ((cs.dropWhile isRustWs).reverse.dropWhile isRustWs).reverse

/-- The caller's `if l.trim().is_empty() { continue; }` test (main.rs lines
219-221): `true` means the line is skipped and the lex/parse core is never
invoked. -/
def mainSkips (cs : List Char) : Bool := (rustTrim cs).isEmpty

/-- One observable print of the REPL body: a line on stdout (`println!`) or a
line on stderr (`eprintln!`). -/
inductive MainEvent where
  | out (s : String)
  | errOut (s : String)
deriving DecidableEq

/-- Modelled from the spec: the rendering `e.pp(&lexer, &calc_y::token_epp)`
of one diagnostic (the lrpar pretty-printer is not under `src/`); spec
section 4.4 only requires one human-readable line per diagnostic referencing
its location. -/
def renderDiag (d : Diag) : String :=
  "Parsing error at position " ++ Nat.repr d.span.1

/-- The prints performed by one iteration of the main loop (main.rs lines
218-233) on input line `cs`: skip blank lines; otherwise print every
diagnostic with `println!` in order, then `println!("Result: {:?}", r)` on
`Some(Ok(r))` and `eprintln!("Unable to evaluate expression.")` on anything
else. -/
def lineEvents (cs : List Char) : List MainEvent :=
  if mainSkips cs then []
  else
    match parseLine cs with
    | (res, errs) =>
      errs.map (fun e => MainEvent.out (renderDiag e)) ++
        match res with
        | some (.ok r) => [MainEvent.out ("Result: " ++ Nat.repr r)]
        | _ => [MainEvent.errOut "Unable to evaluate expression."]

/-- The stdout lines among a list of print events, in order. -/
def stdoutOf (evs : List MainEvent) : List String :=
  evs.filterMap (fun e => match e with | .out s => some s | .errOut _ => none)

/-- The stderr lines among a list of print events, in order. -/
def stderrOf (evs : List MainEvent) : List String :=
  evs.filterMap (fun e => match e with | .out _ => none | .errOut s => some s)

/-! ## Lexer lemmas -/

lemma lexGo_digits (ds : List Char) (h : ∀ c ∈ ds, c.isDigit = true) :
    ∀ pos st acc cs, lexGo pos (some (st, acc)) (ds ++ cs) =
      lexGo (pos + ds.length) (some (st, acc ++ ds)) cs := by
  induction ds with
  | nil => intro pos st acc cs; simp
  | cons c ds ih =>
    intro pos st acc cs
    have hc : c.isDigit = true := h c (List.mem_cons_self c ds)
    have hds : ∀ x ∈ ds, x.isDigit = true := fun x hx => h x (List.mem_cons_of_mem c hx)
    rw [List.cons_append]
    rw [show lexGo pos (some (st, acc)) (c :: (ds ++ cs)) =
        lexGo (pos + 1) (some (st, acc ++ [c])) (ds ++ cs) from by simp [lexGo, hc]]
    rw [ih hds (pos + 1) st (acc ++ [c]) cs]
    have e1 : pos + 1 + ds.length = pos + (c :: ds).length := by
      simp [List.length_cons]; omega
    have e2 : (acc ++ [c]) ++ ds = acc ++ (c :: ds) := by simp
    rw [e1, e2]

lemma lexGo_int_start (p : List Char) (hne : p ≠ [])
    (hdig : ∀ c ∈ p, c.isDigit = true) (pos : Nat) (cs : List Char) :
    lexGo pos none (p ++ cs) = lexGo (pos + p.length) (some (pos, p)) cs := by
  cases p with
  | nil => exact absurd rfl hne
  | cons c ds =>
    have hc : c.isDigit = true := hdig c (List.mem_cons_self c ds)
    have hds : ∀ x ∈ ds, x.isDigit = true := fun x hx => hdig x (List.mem_cons_of_mem c hx)
    rw [List.cons_append]
    rw [show lexGo pos none (c :: (ds ++ cs)) =
        lexGo (pos + 1) (some (pos, [c])) (ds ++ cs) from by simp [lexGo, hc]]
    rw [lexGo_digits ds hds (pos + 1) pos [c] cs]
    have e1 : pos + 1 + ds.length = pos + (c :: ds).length := by
      simp [List.length_cons]; omega
    rw [e1]
    rfl

lemma lexGo_flush_end (q st : Nat) (p : List Char) :
    lexGo q (some (st, p)) [] = .ok [⟨.int, p, (st, q), false⟩] := by
  simp [lexGo, flushInt]

lemma lexGo_flush_plus_ok (q st : Nat) (p : List Char) (cs : List Char)
    (ts : List Lexeme) (h : lexGo (q + 1) none cs = .ok ts) :
    lexGo q (some (st, p)) ('+' :: cs) =
      .ok (⟨.int, p, (st, q), false⟩ :: ⟨.plus, ['+'], (q, q + 1), false⟩ :: ts) := by
  rw [show lexGo q (some (st, p)) ('+' :: cs) =
      (match lexGo (q + 1) none cs with
        | .error d => .error d
        | .ok ts => .ok (flushInt (some (st, p)) q
            (⟨.plus, ['+'], (q, q + 1), false⟩ :: ts))) from by simp [lexGo]]
  rw [h]
  rfl

lemma lex_joinPlus : ∀ (parts : List (List Char)),
    (∀ p ∈ parts, p ≠ [] ∧ ∀ c ∈ p, c.isDigit = true) →
    ∀ pos, lexGo pos none (joinPlus parts) = .ok (toksOf pos parts) := by
  intro parts
  induction parts with
  | nil => intro _ pos; simp [joinPlus, lexGo, toksOf, flushInt]
  | cons p ps ih =>
    intro h pos
    obtain ⟨hpne, hpd⟩ := h p (List.mem_cons_self p ps)
    have hps : ∀ q ∈ ps, q ≠ [] ∧ ∀ c ∈ q, c.isDigit = true :=
      fun q hq => h q (List.mem_cons_of_mem p hq)
    cases ps with
    | nil =>
      rw [show joinPlus [p] = p ++ [] from by simp [joinPlus]]
      rw [lexGo_int_start p hpne hpd pos [], lexGo_flush_end]
      simp [toksOf, tailToks, intLexAt]
    | cons q ps2 =>
      rw [show joinPlus (p :: q :: ps2) = p ++ '+' :: joinPlus (q :: ps2) from rfl]
      rw [lexGo_int_start p hpne hpd pos]
      rw [lexGo_flush_plus_ok (pos + p.length) pos p (joinPlus (q :: ps2))
        (toksOf (pos + p.length + 1) (q :: ps2)) (ih hps (pos + p.length + 1))]
      simp [toksOf, tailToks, intLexAt, plusLexAt]

/-! ## Parser lemmas -/

lemma parse_int_ok (p : List Char) (hne : p ≠ [])
    (hd : ∀ c ∈ p, c.isDigit = true) (hlt : digitsToNat p < 2 ^ 64) :
    parse_int p = .ok (digitsToNat p) := by
  rw [parse_int, if_pos ⟨hne, hd, hlt⟩]

lemma factorStep_int (pe : List Lexeme → Option (Res × List Lexeme × List Diag))
    (ep pos : Nat) (p : List Char) (rest : List Lexeme) :
    factorStep pe ep (intLexAt pos p :: rest) = some (parse_int p, rest, []) := by
  simp [factorStep, intLexAt, actionInt]

lemma sumsFit_cons (a v : Nat) (vs : List Nat) (h : sumsFit a (v :: vs) = true) :
    a + v < 2 ^ 64 ∧ sumsFit (a + v) vs = true := by
  simpa [sumsFit, Bool.and_eq_true, decide_eq_true_eq] using h

lemma loopPlus_tailToks (pe : List Lexeme → Option (Res × List Lexeme × List Diag))
    (ep : Nat) : ∀ (ps : List (List Char)) (f a pos : Nat) (ds : List Diag),
    (∀ p ∈ ps, p ≠ [] ∧ ∀ c ∈ p, c.isDigit = true) →
    sumsFit a (ps.map digitsToNat) = true →
    ps.length < f →
    loopPlus (factorStep pe ep) f (.ok a) (tailToks pos ps) ds =
      some (.ok ((ps.map digitsToNat).foldl (fun x y => x + y) a), [], ds) := by
  intro ps
  induction ps with
  | nil =>
    intro f a pos ds _ _ hf
    obtain ⟨g, rfl⟩ : ∃ g, f = g + 1 := ⟨f - 1, by omega⟩
    simp [tailToks, loopPlus]
  | cons p ps ih =>
    intro f a pos ds hwf hfit hf
    obtain ⟨g, rfl⟩ : ∃ g, f = g + 1 := ⟨f - 1, by omega⟩
    obtain ⟨hpne, hpd⟩ := hwf p (List.mem_cons_self p ps)
    have hwf2 : ∀ q ∈ ps, q ≠ [] ∧ ∀ c ∈ q, c.isDigit = true :=
      fun q hq => hwf q (List.mem_cons_of_mem p hq)
    obtain ⟨hsum, hfit2⟩ := sumsFit_cons a (digitsToNat p) (ps.map digitsToNat)
      (by simpa using hfit)
    have hplt : digitsToNat p < 2 ^ 64 := by omega
    rw [show tailToks pos (p :: ps) =
        plusLexAt pos :: intLexAt (pos + 1) p :: tailToks (pos + 1 + p.length) ps from rfl]
    rw [show loopPlus (factorStep pe ep) (g + 1) (.ok a)
          (plusLexAt pos :: intLexAt (pos + 1) p :: tailToks (pos + 1 + p.length) ps) ds =
        loopPlus (factorStep pe ep) g (actionAdd (.ok a) (parse_int p))
          (tailToks (pos + 1 + p.length) ps) (ds ++ []) from by
      simp [loopPlus, plusLexAt, factorStep_int]]
    rw [parse_int_ok p hpne hpd hplt]
    rw [show actionAdd (.ok a) (.ok (digitsToNat p)) =
        .ok (a + digitsToNat p) from by
      simp [actionAdd]; omega]
    rw [List.append_nil]
    rw [ih g (a + digitsToNat p) (pos + 1 + p.length) ds hwf2 hfit2 (by
      simp [List.length_cons] at hf; omega)]
    simp [List.foldl_cons]

lemma tailToks_length : ∀ (ps : List (List Char)) (pos : Nat),
    (tailToks pos ps).length = 2 * ps.length := by
  intro ps
  induction ps with
  | nil => intro pos; simp [tailToks]
  | cons p ps ih => intro pos; simp [tailToks, List.length_cons, ih]; omega

lemma parseExprFuel_toksOf (ep pos : Nat) (p : List Char) (ps : List (List Char))
    (f : Nat)
    (hwf : ∀ q ∈ p :: ps, q ≠ [] ∧ ∀ c ∈ q, c.isDigit = true)
    (hfit : sumsFit 0 ((p :: ps).map digitsToNat) = true)
    (hf : ps.length < f + 1) :
    parseExprFuel ep (f + 1) (toksOf pos (p :: ps)) =
      some (.ok (((p :: ps).map digitsToNat).foldl (fun x y => x + y) 0), [], []) := by
  obtain ⟨hpne, hpd⟩ := hwf p (List.mem_cons_self p ps)
  obtain ⟨hsum, hfit2⟩ := sumsFit_cons 0 (digitsToNat p) (ps.map digitsToNat)
    (by simpa using hfit)
  have hplt : digitsToNat p < 2 ^ 64 := by omega
  rw [show toksOf pos (p :: ps) = intLexAt pos p :: tailToks (pos + p.length) ps from rfl]
  rw [show parseExprFuel ep (f + 1) (intLexAt pos p :: tailToks (pos + p.length) ps) =
      loopPlus (factorStep (parseExprFuel ep f) ep) (f + 1) (parse_int p)
        (tailToks (pos + p.length) ps) [] from by
    simp [parseExprFuel, factorStep_int]]
  rw [parse_int_ok p hpne hpd hplt]
  rw [loopPlus_tailToks (parseExprFuel ep f) ep ps (f + 1) (digitsToNat p)
    (pos + p.length) [] (fun q hq => hwf q (List.mem_cons_of_mem p hq))
    (by simpa using hfit2) hf]
  simp [List.foldl_cons]

/-! ## Whitespace and output helper lemmas -/

lemma lexGo_ws : ∀ (cs : List Char), (∀ c ∈ cs, c = ' ' ∨ c = '\t') →
    ∀ pos, lexGo pos none cs = .ok [] := by
  intro cs
  induction cs with
  | nil => intro _ pos; simp [lexGo, flushInt]
  | cons c cs ih =>
    intro h pos
    have hc : c = ' ' ∨ c = '\t' := h c (List.mem_cons_self c cs)
    have hcs : ∀ x ∈ cs, x = ' ' ∨ x = '\t' :=
      fun x hx => h x (List.mem_cons_of_mem c hx)
    have hnd : c.isDigit = false := by rcases hc with rfl | rfl <;> rfl
    rw [show lexGo pos none (c :: cs) =
        (match lexGo (pos + 1) none cs with
          | .error d => .error d
          | .ok ts => .ok (flushInt none pos ts)) from by simp [lexGo, hnd, hc]]
    rw [ih hcs (pos + 1)]
    rfl

lemma dropWhile_all_ws (cs : List Char) (h : ∀ c ∈ cs, c = ' ' ∨ c = '\t') :
    cs.dropWhile isRustWs = [] := by
  induction cs with
  | nil => rfl
  | cons c cs ih =>
    have hc : isRustWs c = true := by
      rcases h c (List.mem_cons_self c cs) with rfl | rfl <;> rfl
    rw [List.dropWhile_cons_of_pos hc]
    exact ih fun x hx => h x (List.mem_cons_of_mem c hx)

lemma stdoutOf_append (a b : List MainEvent) :
    stdoutOf (a ++ b) = stdoutOf a ++ stdoutOf b := by
  simp [stdoutOf, List.filterMap_append]

lemma stderrOf_append (a b : List MainEvent) :
    stderrOf (a ++ b) = stderrOf a ++ stderrOf b := by
  simp [stderrOf, List.filterMap_append]

lemma stdoutOf_diag_outs (l : List Diag) :
    stdoutOf (l.map fun e => MainEvent.out (renderDiag e)) = l.map renderDiag := by
  induction l with
  | nil => rfl
  | cons d l ih => simp only [List.map_cons, stdoutOf, List.filterMap_cons] at ih ⊢; simp [ih]

lemma stderrOf_diag_outs (l : List Diag) :
    stderrOf (l.map fun e => MainEvent.out (renderDiag e)) = [] := by
  induction l with
  | nil => rfl
  | cons d l ih => simp only [List.map_cons, stderrOf, List.filterMap_cons] at ih ⊢; simp [ih]

/-! ## The claims -/

/-- Claim C1 (counterexample): for the input line `18446744073709551615+1`
the documented addition action `Ok($1? + $3?)` is unchecked, so the sum wraps
modulo `2 ^ 64` and the parse returns `Some(Ok(0))` (release-profile
semantics; a debug build panics instead) — not an `Err` result as the claim
states. -/
theorem u64max_plus_one_wraps_to_zero :
    (parseLine "18446744073709551615+1".data).1 = some (.ok 0) := by rfl

/-- Claim C1 (amended): under the baseline grammar documented in build.rs the
addition wraps, so `18446744073709551615+1` returns `Ok(0)` rather than an
`Err`, while `18446744073709551615+0` returns `Ok(18446744073709551615)`;
overflow-detecting `Err("Overflow detected.")` behavior belongs to the
enriched `checked_add` variant documented in build.rs lines 84-91, not to the
grammar in use. -/
theorem u64max_boundary_behavior :
    parseLine "18446744073709551615+1".data = (some (.ok 0), []) ∧
    parseLine "18446744073709551615+0".data = (some (.ok 18446744073709551615), []) ∧
    actionAddChecked (.ok 18446744073709551615) (.ok 1) = .error "Overflow detected." := by
  exact ⟨by rfl, by rfl, by rfl⟩

/-- Claim C2: for every input line `a+b+...+z` whose terms are decimal
literals fitting in `u64` and whose left-to-right running sums all fit in 64
bits, the pipeline returns `Some(Ok(s))` with `s` the left-to-right
(`foldl`, i.e. `(1+2)+3`-style) sum of the literal values, and no
diagnostics. -/
theorem sum_of_literals_correct (parts : List (List Char))
    (hne : parts ≠ [])
    (hwf : ∀ p ∈ parts, p ≠ [] ∧ ∀ c ∈ p, c.isDigit = true)
    (heach : ∀ p ∈ parts, digitsToNat p < 2 ^ 64)
    (hrun : sumsFit 0 (parts.map digitsToNat) = true) :
    parseLine (joinPlus parts) =
      (some (.ok ((parts.map digitsToNat).foldl (fun x y => x + y) 0)), []) := by
  cases parts with
  | nil => exact absurd rfl hne
  | cons p ps =>
    have hlex : lexLine (joinPlus (p :: ps)) = .ok (toksOf 0 (p :: ps)) :=
      lex_joinPlus (p :: ps) hwf 0
    rw [show parseLine (joinPlus (p :: ps)) =
        parseToks (joinPlus (p :: ps)).length (toksOf 0 (p :: ps)) from by
      unfold parseLine; rw [hlex]]
    have hlen : (toksOf 0 (p :: ps)).length = 2 * ps.length + 1 := by
      simp [toksOf, List.length_cons, tailToks_length]
    rw [show toksOf 0 (p :: ps) = intLexAt 0 p :: tailToks (0 + p.length) ps from rfl]
    rw [show parseToks (joinPlus (p :: ps)).length
          (intLexAt 0 p :: tailToks (0 + p.length) ps) =
        (match parseExprFuel (joinPlus (p :: ps)).length
            ((intLexAt 0 p :: tailToks (0 + p.length) ps).length + 1)
            (intLexAt 0 p :: tailToks (0 + p.length) ps) with
          | some (v, [], ds) => (some v, ds)
          | some (_, l :: _, ds) => (none, ds ++ [⟨l.span, .parseError⟩])
          | none => (none, [⟨((joinPlus (p :: ps)).length, (joinPlus (p :: ps)).length),
              .parseError⟩])) from rfl]
    rw [show (intLexAt 0 p :: tailToks (0 + p.length) ps).length =
        2 * ps.length + 1 from by simpa [toksOf] using hlen]
    rw [show toksOf 0 (p :: ps) = intLexAt 0 p :: tailToks (0 + p.length) ps from rfl] at hlen
    rw [show (2 * ps.length + 1 + 1 : Nat) = (2 * ps.length + 1) + 1 from rfl]
    rw [show (intLexAt 0 p :: tailToks (0 + p.length) ps) = toksOf 0 (p :: ps) from rfl]
    rw [parseExprFuel_toksOf (joinPlus (p :: ps)).length 0 p ps (2 * ps.length + 1)
      hwf hrun (by omega)]

/-- Witness for C2 at the concrete line `1+2+3`. -/
theorem sum_of_literals_correct_witness :
    parseLine (joinPlus [['1'], ['2'], ['3']]) = (some (.ok 6), []) := by
  have h := sum_of_literals_correct [['1'], ['2'], ['3']] (by decide) (by decide)
    (by decide) (by decide)
  simpa using h

/-- Claim C3: every parse outcome is exactly one of `Some(Ok v)`,
`Some(Err(()))` and `None`; empty input yields `None` with no diagnostics, a
fully reduced error-free stream yields `Some(Ok v)` (here `1`), and a full
parse tree with a failed action (a literal that does not fit in `u64`) yields
`Some(Err(()))`. -/
theorem parse_outcomes_trichotomy :
    (∀ cs : List Char, (∃ v, (parseLine cs).1 = some (.ok v)) ∨
        (parseLine cs).1 = some (.error ()) ∨ (parseLine cs).1 = none) ∧
    parseLine [] = (none, []) ∧
    (parseLine ['1']).1 = some (.ok 1) ∧
    (parseLine "99999999999999999999".data).1 = some (.error ()) := by
  refine ⟨?_, rfl, rfl, by rfl⟩
  intro cs
  cases h : (parseLine cs).1 with
  | none => exact Or.inr (Or.inr rfl)
  | some r =>
    cases r with
    | error e => cases e; exact Or.inr (Or.inl rfl)
    | ok v => exact Or.inl ⟨v, rfl⟩

/-- Claim C4 (counterexample): the `Factor -> '(' Expr ')' { $2 }` reduction
contains the `')'` lexeme but never inspects it, so with a `')'` inserted by
error recovery its action still passes the inner value `Ok(3)` through
instead of yielding `Err(())`. -/
theorem inserted_rparen_not_err :
    actionParen ⟨.lparen, ['('], (0, 1), false⟩ (.ok 3) (insertedRParen 4) = .ok 3 := rfl

/-- Claim C4 (amended): only the `'INT'` action observes its lexeme's value,
and it yields `Err(())` whenever that lexeme was inserted by error recovery
(`$1.map_err(|_| ())?`); the parenthesis action ignores its lexemes' inserted
status and passes the inner value through unchanged. -/
theorem inserted_int_yields_err :
    (∀ l : Lexeme, l.inserted = true → actionInt l = .error ()) ∧
    (∀ (lp rp : Lexeme) (v : Res), actionParen lp v rp = v) := by
  constructor
  · intro l h; simp [actionInt, h]
  · intro lp rp v; rfl

/-- Witness for the amended C4: an inserted `INT` lexeme evaluates to
`Err(())`. -/
theorem inserted_int_yields_err_witness :
    actionInt ⟨.int, ['5'], (0, 0), true⟩ = .error () :=
  inserted_int_yields_err.1 ⟨.int, ['5'], (0, 0), true⟩ rfl

/-- Claim C5 (counterexample): for the malformed line `(1+2` the recovery
inserts the missing `')'` and the `{ $2 }` action passes the inner value
through, so the parse result is `Some(Ok(3))` — neither `None` nor
`Some(Err(()))` as the claim requires. -/
theorem missing_rparen_returns_ok_three :
    (parseLine ['(', '1', '+', '2']).1 = some (.ok 3) := by rfl

/-- Claim C5 (amended): `(1+2` yields one diagnostic (the `')'` inserted at
end of input) together with the result `Some(Ok(3))`: the error is reported,
but the recovered parse still evaluates to `3`. -/
theorem missing_rparen_diag_and_value :
    parseLine ['(', '1', '+', '2'] =
      (some (.ok 3), [⟨(4, 4), .insertedToken .rparen⟩]) := by rfl

/-- Claim C6: `(1+2)+3` and `1+(2+3)` both evaluate to `Some(Ok(6))` with no
diagnostics: a parenthesized `Factor` passes the inner `Expr` result through
unchanged, so regrouping a sum with parentheses does not change its value. -/
theorem parenthesization_preserves_sum :
    parseLine ['(', '1', '+', '2', ')', '+', '3'] = (some (.ok 6), []) ∧
    parseLine ['1', '+', '(', '2', '+', '3', ')'] = (some (.ok 6), []) := ⟨by rfl, by rfl⟩

/-- Claim C7: for the line `1+@` the pipeline surfaces the unrecognized byte
as a diagnostic whose span `(2, 3)` is exactly the span of the `@` character,
and the parse result is `None` — in particular not `Some(Ok(..))`. -/
theorem unrecognized_char_diag_span :
    parseLine ['1', '+', '@'] = (none, [⟨(2, 3), .unrecognizedChar⟩]) := by rfl

/-- Claim C8: a line consisting solely of whitespace is skipped by the caller
(`if l.trim().is_empty() continue`, main.rs lines 219-221) without invoking
the lex/parse core, and if the core were invoked on it anyway it would return
`None` with no diagnostics. -/
theorem whitespace_line_skipped (cs : List Char)
    (h : ∀ c ∈ cs, c = ' ' ∨ c = '\t') :
    mainSkips cs = true ∧ parseLine cs = (none, []) := by
  constructor
  · simp [mainSkips, rustTrim, dropWhile_all_ws cs h]
  · unfold parseLine lexLine
    rw [lexGo_ws cs h 0]
    rfl

/-- Witness for C8 at the concrete line consisting of one space and one
tab. -/
theorem whitespace_line_skipped_witness :
    mainSkips [' ', '\t'] = true ∧ parseLine [' ', '\t'] = (none, []) :=
  whitespace_line_skipped [' ', '\t'] (by decide)

/-- Claim C9 (counterexample): the addition action is the unchecked
`Ok($1? + $3?)` (build.rs lines 12-15); under the default dev (debug) Rust
profile, the `u64` addition `18446744073709551615 + 1` panics — modelled as
`none`: no `Err` value and no diagnostic is produced, the panic unwinds past
the parse call and aborts the process, contradicting the claim's universal
no-unwind guarantee. -/
theorem debug_overflow_add_panics :
    actionAddDebug (.ok 18446744073709551615) (.ok 1) = none := by rfl

/-- Claim C9 (amended): lexical errors stay local to the line as diagnostics,
and the addition action short-circuits `Err` operands and returns normally
whenever the sum fits in 64 bits; the sole non-local behavior is an
overflowing addition, which panics in a debug build (release builds wrap
instead). -/
theorem error_locality_amended :
    (∀ cs d, lexLine cs = .error d → parseLine cs = (none, [d])) ∧
    (∀ a b : Nat, a + b < 2 ^ 64 →
      actionAddDebug (.ok a) (.ok b) = some (.ok (a + b))) ∧
    (∀ r : Res, actionAddDebug (.error ()) r = some (.error ())) ∧
    (∀ a : Nat, actionAddDebug (.ok a) (.error ()) = some (.error ())) ∧
    (∀ a b : Nat, actionAddDebug (.ok a) (.ok b) = none → 2 ^ 64 ≤ a + b) := by
  refine ⟨?_, ?_, ?_, ?_, ?_⟩
  · intro cs d h; simp [parseLine, h]
  · intro a b h; simp [actionAddDebug, h]; omega
  · intro r; rfl
  · intro a; rfl
  · intro a b h
    by_contra hc
    push_neg at hc
    simp [actionAddDebug, hc] at h
    omega

/-- Witness for the amended C9: a lexical error becomes the line's
diagnostic, and a non-overflowing addition returns normally. -/
theorem error_locality_amended_witness :
    parseLine ['@'] = (none, [⟨(0, 1), .unrecognizedChar⟩]) ∧
    actionAddDebug (.ok 1) (.ok 2) = some (.ok 3) :=
  ⟨error_locality_amended.1 ['@'] ⟨(0, 1), .unrecognizedChar⟩ (by rfl),
    error_locality_amended.2.1 1 2 (by norm_num)⟩

/-- Claim C10: for every processed (non-blank) input line, the caller prints
each diagnostic to stdout, one per line, in the order the parser produced
them, before the outcome; on `Some(Ok(r))` it prints `Result: r` to stdout,
and on any other outcome it writes the fixed message
`Unable to evaluate expression.` to stderr, never to stdout. -/
theorem main_output_order (cs : List Char) (h : mainSkips cs = false) :
    stdoutOf (lineEvents cs) =
      (parseLine cs).2.map renderDiag ++
        (match (parseLine cs).1 with
          | some (.ok r) => ["Result: " ++ Nat.repr r]
          | _ => []) ∧
    stderrOf (lineEvents cs) =
      (match (parseLine cs).1 with
        | some (.ok _) => ([] : List String)
        | _ => ["Unable to evaluate expression."]) := by
  unfold lineEvents
  rcases hp : parseLine cs with ⟨res, errs⟩
  simp only [h, Bool.false_eq_true, if_false]
  rcases res with _ | r
  · constructor
    · rw [stdoutOf_append, stdoutOf_diag_outs]; rfl
    · rw [stderrOf_append, stderrOf_diag_outs]; rfl
  · rcases r with e | v
    · cases e
      constructor
      · rw [stdoutOf_append, stdoutOf_diag_outs]; rfl
      · rw [stderrOf_append, stderrOf_diag_outs]; rfl
    · constructor
      · rw [stdoutOf_append, stdoutOf_diag_outs]; rfl
      · rw [stderrOf_append, stderrOf_diag_outs]; rfl

/-- Witness for C10 at the concrete line `1`: no diagnostics, `Result: 1` on
stdout, nothing on stderr. -/
theorem main_output_order_witness :
    stdoutOf (lineEvents ['1']) = ["Result: 1"] ∧
    stderrOf (lineEvents ['1']) = [] := by
  have h := main_output_order ['1'] (by rfl)
  exact ⟨h.1.trans (by rfl), h.2.trans (by rfl)⟩

end CalcGrmtools
